import Mathlib

/-!
Shallow embedding of the memorial-document generator:
`render_pdf.py` (comment pagination, background resolution, render-pass
background fallback) and `test_data.py` (dataset validation).

Python numbers are modelled exactly: message lengths are `Nat`, effective
weights (which involve `* 0.5`) are `ℚ`, `max_per_page` is `ℤ`. Strings are
Lean `String`s (the validator regexes use ASCII digit classes in the model).
-/

/-- A comment record as consumed by the paginator: `paginate_comments` only
reads the `message` key via `c.get("message", "")`; the `author` field keeps
comments distinguishable. A missing `message` key is `none`. -/
structure Comment where
  author : String
  message : Option String
deriving DecidableEq, Repr

/-- `effective_len` from `paginate_comments`:
`msg_len if msg_len > 120 else msg_len * 0.5` applied to
`len(c.get("message", ""))`. -/
def commentWeight (c : Comment) : ℚ :=
  let msg_len := (c.message.getD "").length
  if 120 < msg_len then (msg_len : ℚ) else (msg_len : ℚ) * (1 / 2)

/-- Loop state of `paginate_comments`: the closed pages, the page being
filled, and its running effective length. -/
structure PgState where
  pages : List (List Comment)
  current_page : List Comment
  current_len : ℚ

/-- The page-break test and flush from `paginate_comments`
(`if current_page and (current_len + effective_len > max_chars or
len(current_page) >= max_per_page)`): close the current page and reset. -/
def pgBreak (max_chars : ℚ) (max_per_page : ℤ) (st : PgState) (eff : ℚ) : PgState :=
  if st.current_page.isEmpty = false ∧
      (max_chars < st.current_len + eff ∨ max_per_page ≤ (st.current_page.length : ℤ)) then
    { pages := st.pages ++ [st.current_page], current_page := [], current_len := 0 }
  else
    st

/-- One iteration of the `for c in comments` loop of `paginate_comments`. -/
def pgStep (max_chars : ℚ) (max_per_page : ℤ) (st : PgState) (c : Comment) : PgState :=
  let eff := commentWeight c
  let st' := pgBreak max_chars max_per_page st eff
  { pages := st'.pages
    current_page := st'.current_page ++ [c]
    current_len := st'.current_len + eff }

/-- `paginate_comments(comments, max_chars, max_per_page)`: run the loop from
the empty state, then flush the last page if non-empty. -/
def paginate_comments (comments : List Comment) (max_chars : ℚ) (max_per_page : ℤ) :
    List (List Comment) :=
  let fin := comments.foldl (pgStep max_chars max_per_page) ⟨[], [], 0⟩
  if fin.current_page.isEmpty then fin.pages else fin.pages ++ [fin.current_page]

/-- The weight total of a page: sum of the effective lengths of its comments. -/
def pageWeight (p : List Comment) : ℚ := (p.map commentWeight).sum

/-- Weight invariant under the hypothesis that every comment fits the budget:
the running length tracks the current page, a non-empty current page fits the
budget, and every closed page fits the budget. -/
def WInvA (W : ℚ) (st : PgState) : Prop :=
  st.current_len = pageWeight st.current_page ∧
    (st.current_page ≠ [] → st.current_len ≤ W) ∧
    ∀ p ∈ st.pages, pageWeight p ≤ W

/-- Unconditional weight invariant: any page holding at least two comments fits
the budget, and closed pages are non-empty. -/
def WInvB (W : ℚ) (st : PgState) : Prop :=
  st.current_len = pageWeight st.current_page ∧
    (2 ≤ st.current_page.length → st.current_len ≤ W) ∧
    (∀ p ∈ st.pages, 2 ≤ p.length → pageWeight p ≤ W) ∧
    ∀ p ∈ st.pages, p ≠ []

/-- A JSON-like value as loaded from `data.json` (Python objects reaching the
validator and the background parser). Numbers are modelled as integers;
objects as association lists keyed by strings (Python dict keys are unique). -/
inductive JValue where
  | null
  | bool (b : Bool)
  | num (n : Int)
  | str (s : String)
  | arr (l : List JValue)
  | obj (fields : List (String × JValue))

/-- Python truthiness (`if value:`) for the modelled values. -/
def truthy : JValue → Bool
  | .null => false
  | .bool b => b
  | .num n => n != 0
  | .str s => !(s == "")
  | .arr l => !l.isEmpty
  | .obj fields => !fields.isEmpty

/-- `d.get(k)` on a modelled dict: the value at the first matching key. -/
def jGet (fields : List (String × JValue)) (k : String) : Option JValue :=
  (fields.find? (fun p => p.1 == k)).map (fun p => p.2)

/-- The normalized background record produced by `parse_background`. -/
structure BackgroundSpec where
  image : JValue
  size : JValue
  position : JValue

/-- `parse_background(bg_config, default_size, default_position)`: a plain
string is the image reference; a dict is read field-wise with per-field
defaults; anything else yields the all-defaults record. -/
def parse_background (bg_config : JValue) (default_size default_position : JValue) :
    BackgroundSpec :=
  match bg_config with
  | .str s => { image := .str s, size := default_size, position := default_position }
  | .obj fields =>
    { image := (jGet fields "image").getD (.str "")
      size := (jGet fields "size").getD default_size
      position := (jGet fields "position").getD default_position }
  | _ => { image := .str "", size := default_size, position := default_position }

/-- The raw `backgrounds` mapping of the dataset: `cover`, `pages` and
`pages_list` entries, each possibly absent (a key present with JSON `null`
is `some .null`, not absent). -/
structure Backgrounds where
  cover : Option JValue
  pages : Option JValue
  pages_list : Option JValue

/-- The part of the dataset the render pass reads for background resolution:
`data.get("backgrounds", {})` and the legacy top-level `background_image`. -/
structure RenderData where
  backgrounds : Option Backgrounds
  background_image : Option JValue

/-- `data.get("backgrounds", {})` when the key is absent. -/
def emptyBackgrounds : Backgrounds := ⟨none, none, none⟩

/-- `parse_background(backgrounds.get("cover", data.get("background_image")))`
from `render_pdf` (defaults `"cover"`, `"center"`; a missing fallback is
Python `None`, modelled `.null`). -/
def renderBackgroundCover (d : RenderData) : BackgroundSpec :=
  let backgrounds := d.backgrounds.getD emptyBackgrounds
  parse_background (backgrounds.cover.getD (d.background_image.getD .null))
    (.str "cover") (.str "center")

/-- `parse_background(backgrounds.get("pages", backgrounds.get("cover")))`
from `render_pdf`. -/
def renderBackgroundPages (d : RenderData) : BackgroundSpec :=
  let backgrounds := d.backgrounds.getD emptyBackgrounds
  parse_background (backgrounds.pages.getD (backgrounds.cover.getD .null))
    (.str "cover") (.str "center")

/-- The cover scope resolution as the spec words it: resolve the raw `cover`
entry when configured, otherwise the legacy top-level `background_image`,
otherwise nothing. -/
def coverScopeSpec (d : RenderData) : BackgroundSpec :=
  match (d.backgrounds.getD emptyBackgrounds).cover with
  | some raw => parse_background raw (.str "cover") (.str "center")
  | none =>
    match d.background_image with
    | some raw => parse_background raw (.str "cover") (.str "center")
    | none => parse_background .null (.str "cover") (.str "center")

/-- The pages scope resolution as the spec words it: resolve the raw `pages`
entry when configured, otherwise the raw `cover` entry, by its own call. -/
def pagesScopeSpec (d : RenderData) : BackgroundSpec :=
  match (d.backgrounds.getD emptyBackgrounds).pages with
  | some raw => parse_background raw (.str "cover") (.str "center")
  | none =>
    match (d.backgrounds.getD emptyBackgrounds).cover with
    | some raw => parse_background raw (.str "cover") (.str "center")
    | none => parse_background .null (.str "cover") (.str "center")

/-- Override only the raw `pages` entry of a dataset. -/
def setPages (d : RenderData) (p : Option JValue) : RenderData :=
  { backgrounds := some { d.backgrounds.getD emptyBackgrounds with pages := p }
    background_image := d.background_image }

/-- Override only the legacy top-level `background_image` of a dataset. -/
def setBackgroundImage (d : RenderData) (img : Option JValue) : RenderData :=
  { backgrounds := d.backgrounds, background_image := img }

/-- Errors escaping a validation check in `test_data.py`: the custom
`ValidationError` (carrying its human-readable reason) or any other Python
exception, such as the `TypeError` raised by `re.match` or `Path./` on
non-string input. -/
inductive VError where
  | validation (msg : String)
  | typeError (msg : String)
deriving DecidableEq, Repr

/-- A comment entry of the dataset as the validator reads it: the four keys it
consults, each possibly absent, each holding an arbitrary JSON value. -/
structure RawComment where
  author : Option JValue
  message : Option JValue
  profile_image : Option JValue
  height : Option JValue

/-- `if key not in comment: raise ValidationError(msg)`, yielding the value. -/
def requireKey (v : Option JValue) (msg : String) : Except VError JValue :=
  match v with
  | some x => .ok x
  | none => .error (.validation msg)

/-- `not s.strip()` for a Python string: true exactly when the string is
empty or all whitespace. -/
def isBlank (s : String) : Bool :=
  s.data.all (fun ch => ch.isWhitespace)

/-- `if not isinstance(v, str) or not v.strip(): raise ValidationError(msg)`:
the value must be a string with non-blank content. -/
def requireNonEmptyString (v : JValue) (msg : String) : Except VError String :=
  match v with
  | .str s => if isBlank s then .error (.validation msg) else .ok s
  | _ => .error (.validation msg)

/-- `validate_file_exists(filepath, description)` from `test_data.py`, with
the filesystem supplied as an existence oracle. `ROOT / filepath` raises a
`TypeError` when `filepath` is not a string, before any existence check. -/
def validate_file_exists (fs : String → Bool) (filepath : JValue) (description : String) :
    Except VError Unit :=
  match filepath with
  | .str p =>
    if fs p then .ok () else .error (.validation (description ++ " not found: " ++ p))
  | _ => .error (.typeError "unsupported operand type for path join")

/-- The height pattern test `re.compile(r'^\d+px$').match(height)`: one or
more digits then `px`; Python `$` also matches just before a single trailing
newline (`\d` is modelled as ASCII digits). Greedy `\d+` followed by the
non-digit `p` makes the maximal digit run the only viable split. -/
def heightMatch (s : String) : Bool :=
  let l := s.data
  let ds := l.takeWhile (fun ch => ch.isDigit)
  let rest := l.drop ds.length
  !ds.isEmpty && (rest == ['p', 'x'] || rest == ['p', 'x', '\n'])

/-- The pixel-magnitude pattern exactly as the spec words it: one or more
digits followed by `px` and nothing else. -/
def specPixelPattern (s : String) : Bool :=
  let l := s.data
  let ds := l.takeWhile (fun ch => ch.isDigit)
  !ds.isEmpty && (l.drop ds.length == ['p', 'x'])

/-- The height error reason of `validate_comments`, naming the indexed path. -/
def heightMsg (i : Nat) (s : String) : String :=
  "comments[" ++ toString i ++ "].height must be in format XXXpx. Got: " ++ s

/-- The optional `profile_image` check of `validate_comments`: only a truthy
value is checked; a `ValidationError` from the existence check is relabelled
with the author, any other error propagates unchanged. -/
def checkProfileImage (fs : String → Bool) (i : Nat) (author : String)
    (pi : Option JValue) : Except VError Unit :=
  match pi with
  | none => .ok ()
  | some v =>
    if truthy v then
      match validate_file_exists fs v ("comments[" ++ toString i ++ "].profile_image") with
      | .ok _ => .ok ()
      | .error (.validation m) =>
        .error (.validation ("Invalid profile_image for " ++ author ++ ": " ++ m))
      | .error e => .error e
    else .ok ()

/-- The optional `height` check of `validate_comments`: `re.match` raises a
`TypeError` when the value is present but not a string. -/
def checkHeight (i : Nat) (h : Option JValue) : Except VError Unit :=
  match h with
  | none => .ok ()
  | some (.str s) =>
    if heightMatch s then .ok () else .error (.validation (heightMsg i s))
  | some _ => .error (.typeError "expected string or bytes-like object")

/-- The per-comment body of the `for i, comment in enumerate(comments)` loop
of `validate_comments`, in source order: key presence of `author` and
`message`, then their non-blank-string checks, then the optional
`profile_image` and `height` checks. -/
def checkComment (fs : String → Bool) (i : Nat) (c : RawComment) : Except VError Unit := do
  let authorV ← requireKey c.author ("Missing author in comments[" ++ toString i ++ "]")
  let messageV ← requireKey c.message ("Missing message in comments[" ++ toString i ++ "]")
  let author ← requireNonEmptyString authorV
    ("comments[" ++ toString i ++ "].author must be a non-empty string")
  let _ ← requireNonEmptyString messageV
    ("comments[" ++ toString i ++ "].message must be a non-empty string")
  checkProfileImage fs i author c.profile_image
  checkHeight i c.height

/-- The indexed loop of `validate_comments`, fail-fast on the first error. -/
def validateCommentsLoop (fs : String → Bool) : Nat → List RawComment → Except VError Unit
  | _, [] => .ok ()
  | i, c :: rest => do
    checkComment fs i c
    validateCommentsLoop fs (i + 1) rest

/-- The `comments` entry restricted to the shape where every element is a
mapping over the consulted keys — the context of the duplicate-author
behaviour, whose hypotheses force every element through the mapping checks.
`validate_comments_data` models the entry in full generality, with arbitrary
elements. -/
inductive CommentsField where
  | absent
  | notList (v : JValue)
  | list (cs : List RawComment)

/-- The author value collected into `authors` by the loop (always a string for
a comment that passed its checks). -/
def commentAuthorString (c : RawComment) : String :=
  match c.author with
  | some (.str s) => s
  | _ => ""

/-- The duplicate-author warning content:
`[author for author in set(authors) if authors.count(author) > 1]` (the model
fixes a canonical order for the unordered Python set). -/
def duplicateAuthors (cs : List RawComment) : List String :=
  let authors := cs.map commentAuthorString
  authors.dedup.filter (fun a => 1 < authors.count a)

/-- `validate_comments(data)` from `test_data.py`: presence, shape and
non-emptiness of `comments`, then the per-comment loop, then the non-fatal
duplicate-author warning (modelled as the returned warning list, since the
source only prints it). -/
def validate_comments (fs : String → Bool) : CommentsField → Except VError (List String)
  | .absent => .error (.validation "Missing required top-level key: comments")
  | .notList _ => .error (.validation "comments must be an array")
  | .list cs =>
    if cs.length = 0 then .error (.validation "comments array is empty")
    else do
      validateCommentsLoop fs 0 cs
      pure (duplicateAuthors cs)

/-- A comment whose `height`, when present, holds a string (the only shape
`re.match` accepts). -/
def heightIsString (c : RawComment) : Prop :=
  ∀ v, c.height = some v → ∃ s, v = JValue.str s

/-- A comment whose `profile_image`, when present and truthy, holds a string
(the only shape `ROOT / filepath` accepts). -/
def profileImageStringlike (c : RawComment) : Prop :=
  ∀ v, c.profile_image = some v → truthy v = true → ∃ s, v = JValue.str s

/-- Classifies a validation outcome: success or a `ValidationError`, never the
modelled `TypeError`. -/
def onlyValidation {α : Type} : Except VError α → Prop
  | .error (.typeError _) => False
  | _ => True

/-- The first list starts the second (character lists). -/
def charsStartWith : List Char → List Char → Bool
  | [], _ => true
  | _ :: _, [] => false
  | a :: xs, b :: ys => a == b && charsStartWith xs ys

/-- The first list occurs contiguously inside the second (character lists). -/
def charsContain (needle : List Char) : List Char → Bool
  | [] => charsStartWith needle []
  | b :: rest => charsStartWith needle (b :: rest) || charsContain needle rest

/-- Python `k in s` on strings: substring containment. -/
def pyInStr (k s : String) : Bool := charsContain k.data s.data

/-- Python `k in l` on a list, for a string key: membership under Python
equality, which holds only for an equal string element. -/
def pyInList (k : String) (l : List JValue) : Bool :=
  l.any (fun e =>
    match e with
    | .str t => t == k
    | _ => false)

/-- The four consulted keys of a mapping comment element, as a record. -/
def rawOfObj (fields : List (String × JValue)) : RawComment :=
  ⟨jGet fields "author", jGet fields "message", jGet fields "profile_image",
    jGet fields "height"⟩

/-- One iteration of the `for i, comment in enumerate(comments)` loop of
`validate_comments` on an arbitrary element. A mapping runs the per-comment
checks. On any other shape the body fails early: `"author" not in comment`
raises a `TypeError` for a number, boolean or `None`; for a string or a list
the two containment tests run first (a miss is the missing-key
`ValidationError`), after which `comment["author"]` raises a `TypeError`. -/
def checkEntry (fs : String → Bool) (i : Nat) (v : JValue) : Except VError Unit :=
  match v with
  | .obj fields => checkComment fs i (rawOfObj fields)
  | .str s =>
    if pyInStr "author" s = false then
      .error (.validation ("Missing author in comments[" ++ toString i ++ "]"))
    else if pyInStr "message" s = false then
      .error (.validation ("Missing message in comments[" ++ toString i ++ "]"))
    else .error (.typeError "string indices must be integers")
  | .arr l =>
    if pyInList "author" l = false then
      .error (.validation ("Missing author in comments[" ++ toString i ++ "]"))
    else if pyInList "message" l = false then
      .error (.validation ("Missing message in comments[" ++ toString i ++ "]"))
    else .error (.typeError "list indices must be integers")
  | .num _ => .error (.typeError "argument of type int is not iterable")
  | .bool _ => .error (.typeError "argument of type bool is not iterable")
  | .null => .error (.typeError "argument of type NoneType is not iterable")

/-- The indexed loop of `validate_comments` over arbitrary elements,
fail-fast on the first error. -/
def validateEntriesLoop (fs : String → Bool) : Nat → List JValue → Except VError Unit
  | _, [] => .ok ()
  | i, v :: rest => do
    checkEntry fs i v
    validateEntriesLoop fs (i + 1) rest

/-- The duplicate-author warning content over arbitrary elements; only
mappings contribute an author, and under a successful run every element is a
mapping. -/
def duplicateAuthorsData (elems : List JValue) : List String :=
  let authors := elems.map (fun v =>
    match v with
    | .obj fields => commentAuthorString (rawOfObj fields)
    | _ => "")
  authors.dedup.filter (fun a => 1 < authors.count a)

/-- `validate_comments(data)` from `test_data.py` over the raw `comments`
entry: key presence, `isinstance(comments, list)`, non-emptiness, the
per-element loop, then the non-fatal duplicate warning (the returned list
models the printed warning). -/
def validate_comments_data (fs : String → Bool) (comments : Option JValue) :
    Except VError (List String) :=
  match comments with
  | none => .error (.validation "Missing required top-level key: comments")
  | some (.arr elems) =>
    if elems.length = 0 then .error (.validation "comments array is empty")
    else do
      validateEntriesLoop fs 0 elems
      pure (duplicateAuthorsData elems)
  | some _ => .error (.validation "comments must be an array")

/-- A comments-array element that keeps validation inside the
`ValidationError` contract: a mapping whose `height`, when present, is a
string, and whose `profile_image`, when present and truthy, is a string. -/
def entryMappingSafe (v : JValue) : Prop :=
  ∃ fields, v = JValue.obj fields ∧ heightIsString (rawOfObj fields) ∧
    profileImageStringlike (rawOfObj fields)

/-- Two sample comments sharing an author, for the duplicate-author scenario. -/
def aliceHello : RawComment := ⟨some (.str "alice"), some (.str "hello"), none, none⟩

/-- Second comment by the same author. -/
def aliceAgain : RawComment := ⟨some (.str "alice"), some (.str "again"), none, none⟩

/-- A sample comment with a unitless height value. -/
def heightDemoComment : RawComment :=
  ⟨some (.str "a"), some (.str "m"), none, some (.str "120")⟩

/-- After any number of loop iterations, the concatenation of the closed pages
followed by the page in progress is the already-processed input. -/
lemma foldl_pgStep_join (max_chars : ℚ) (max_per_page : ℤ) :
    ∀ (cs : List Comment) (st : PgState),
      (cs.foldl (pgStep max_chars max_per_page) st).pages.flatten ++
          (cs.foldl (pgStep max_chars max_per_page) st).current_page =
        st.pages.flatten ++ st.current_page ++ cs := by
  intro cs
  induction cs with
  | nil => intro st; simp
  | cons c rest ih =>
    intro st
    rw [List.foldl_cons, ih]
    unfold pgStep pgBreak
    dsimp only
    split <;> simp

/-- Joining the pages of `paginate_comments` recovers the input list. -/
lemma paginate_comments_join_eq (cs : List Comment) (max_chars : ℚ) (max_per_page : ℤ) :
    (paginate_comments cs max_chars max_per_page).flatten = cs := by
  unfold paginate_comments
  have h := foldl_pgStep_join max_chars max_per_page cs ⟨[], [], 0⟩
  simp only [List.flatten_nil, List.nil_append] at h
  by_cases he : (cs.foldl (pgStep max_chars max_per_page) ⟨[], [], 0⟩).current_page.isEmpty
  · rw [List.isEmpty_iff] at he
    simp only [he, List.append_nil] at h
    simp [he, h]
  · simp only [Bool.not_eq_true] at he
    simp [he, h]

/-- C1: for every input sequence of comments and all `max_chars` and
`max_per_page`, the concatenation of the pages returned by
`paginate_comments`, in output order, equals the input sequence exactly:
no loss, duplication, or reordering. -/
theorem paginate_comments_concat (cs : List Comment) (max_chars : ℚ) (max_per_page : ℤ) :
    (paginate_comments cs max_chars max_per_page).flatten = cs :=
  paginate_comments_join_eq cs max_chars max_per_page

/-- Case principle for one loop iteration: either the break fires (the current
page was non-empty and a limit was hit), or the state is kept; in both cases
the comment is then appended. -/
lemma pgStep_cases (max_chars : ℚ) (max_per_page : ℤ) (st : PgState) (c : Comment)
    (motive : PgState → Prop)
    (hbreak : st.current_page.isEmpty = false →
      (max_chars < st.current_len + commentWeight c ∨
        max_per_page ≤ (st.current_page.length : ℤ)) →
      motive ⟨st.pages ++ [st.current_page], [c], 0 + commentWeight c⟩)
    (hkeep : ¬(st.current_page.isEmpty = false ∧
        (max_chars < st.current_len + commentWeight c ∨
          max_per_page ≤ (st.current_page.length : ℤ))) →
      motive ⟨st.pages, st.current_page ++ [c], st.current_len + commentWeight c⟩) :
    motive (pgStep max_chars max_per_page st c) := by
  unfold pgStep pgBreak
  dsimp only
  split
  case isTrue h => exact hbreak h.1 h.2
  case isFalse h => exact hkeep h

/-- A state predicate preserved by every loop iteration holds after the fold. -/
lemma foldl_pgStep_inv (max_chars : ℚ) (max_per_page : ℤ) (P : PgState → Prop) :
    ∀ (cs : List Comment),
      (∀ st c, c ∈ cs → P st → P (pgStep max_chars max_per_page st c)) →
      ∀ st, P st → P (cs.foldl (pgStep max_chars max_per_page) st) := by
  intro cs
  induction cs with
  | nil => intro _ st h; simpa using h
  | cons c rest ih =>
    intro hstep st h
    rw [List.foldl_cons]
    exact ih (fun st' c' hc' => hstep st' c' (List.mem_cons_of_mem c hc')) _
      (hstep st c (List.mem_cons_self c rest) h)

/-- Every page of the output is either one of the closed pages of the final
loop state or the non-empty final flush. -/
lemma mem_paginate_comments {cs : List Comment} {max_chars : ℚ} {max_per_page : ℤ}
    {p : List Comment} (hp : p ∈ paginate_comments cs max_chars max_per_page) :
    p ∈ (cs.foldl (pgStep max_chars max_per_page) ⟨[], [], 0⟩).pages ∨
      (p = (cs.foldl (pgStep max_chars max_per_page) ⟨[], [], 0⟩).current_page ∧
        (cs.foldl (pgStep max_chars max_per_page) ⟨[], [], 0⟩).current_page ≠ []) := by
  unfold paginate_comments at hp
  dsimp only at hp
  split at hp
  case isTrue h => exact Or.inl hp
  case isFalse h =>
    rcases List.mem_append.mp hp with h1 | h1
    · exact Or.inl h1
    · refine Or.inr ⟨by simpa using h1, ?_⟩
      intro hnil
      rw [List.isEmpty_iff] at h
      exact h hnil

/-- Invariant: with `max_per_page ≥ 1`, all closed pages and the page in
progress hold at most `max_per_page` comments. -/
lemma pgStep_size_inv (max_chars : ℚ) (max_per_page : ℤ) (h1 : 1 ≤ max_per_page)
    (st : PgState) (c : Comment)
    (h : (∀ p ∈ st.pages, (p.length : ℤ) ≤ max_per_page) ∧
      ((st.current_page.length : ℤ) ≤ max_per_page)) :
    (∀ p ∈ (pgStep max_chars max_per_page st c).pages,
        (p.length : ℤ) ≤ max_per_page) ∧
      (((pgStep max_chars max_per_page st c).current_page.length : ℤ) ≤ max_per_page) := by
  refine pgStep_cases max_chars max_per_page st c
    (fun st' => (∀ p ∈ st'.pages, (p.length : ℤ) ≤ max_per_page) ∧
      ((st'.current_page.length : ℤ) ≤ max_per_page)) ?_ ?_
  · intro _ _
    refine ⟨?_, by simpa using h1⟩
    intro p hp
    rcases List.mem_append.mp hp with h' | h'
    · exact h.1 p h'
    · simp only [List.mem_singleton] at h'
      subst h'
      exact h.2
  · intro hcond
    refine ⟨h.1, ?_⟩
    by_cases hne : st.current_page = []
    · simp [hne]; omega
    · have hA : st.current_page.isEmpty = false := by
        simpa [List.isEmpty_iff] using hne
      have hD : ¬ (max_per_page ≤ (st.current_page.length : ℤ)) := fun hD =>
        hcond ⟨hA, Or.inr hD⟩
      have : (st.current_page.length : ℤ) + 1 ≤ max_per_page := by omega
      simpa [List.length_append] using this

/-- Amended C3: when `max_per_page ≥ 1`, every page produced by
`paginate_comments` contains at most `max_per_page` comments. -/
theorem paginate_comments_page_size (cs : List Comment) (max_chars : ℚ)
    (max_per_page : ℤ) (h1 : 1 ≤ max_per_page) :
    ∀ p ∈ paginate_comments cs max_chars max_per_page,
      (p.length : ℤ) ≤ max_per_page := by
  have hinv := foldl_pgStep_inv max_chars max_per_page
    (fun st => (∀ p ∈ st.pages, (p.length : ℤ) ≤ max_per_page) ∧
      ((st.current_page.length : ℤ) ≤ max_per_page)) cs
    (fun st c _ h => pgStep_size_inv max_chars max_per_page h1 st c h)
    ⟨[], [], 0⟩ ⟨by simp, by simp; omega⟩
  intro p hp
  rcases mem_paginate_comments hp with h | ⟨rfl, _⟩
  · exact hinv.1 p h
  · exact hinv.2

/-- Effective lengths are non-negative. -/
lemma commentWeight_nonneg (c : Comment) : 0 ≤ commentWeight c := by
  unfold commentWeight
  dsimp only
  split
  · positivity
  · positivity

lemma pageWeight_append (p q : List Comment) :
    pageWeight (p ++ q) = pageWeight p + pageWeight q := by
  simp [pageWeight]

lemma pageWeight_singleton (c : Comment) : pageWeight [c] = commentWeight c := by
  simp [pageWeight]

lemma le_pageWeight_of_mem {c : Comment} {p : List Comment} (hc : c ∈ p) :
    commentWeight c ≤ pageWeight p :=
  List.single_le_sum
    (fun x hx => by
      rcases List.mem_map.mp hx with ⟨y, _, rfl⟩
      exact commentWeight_nonneg y)
    _ (List.mem_map_of_mem commentWeight hc)

lemma pgStep_weightA (W : ℚ) (mpp : ℤ) (st : PgState) (c : Comment)
    (hwc : commentWeight c ≤ W) (h : WInvA W st) : WInvA W (pgStep W mpp st c) := by
  obtain ⟨h1, h2, h3⟩ := h
  refine pgStep_cases W mpp st c (WInvA W) ?_ ?_
  · intro hne _
    refine ⟨by simp [pageWeight_singleton], fun _ => by simpa using hwc, ?_⟩
    intro p hp
    rcases List.mem_append.mp hp with h' | h'
    · exact h3 p h'
    · simp only [List.mem_singleton] at h'
      subst h'
      rw [← h1]
      exact h2 (by simpa [List.isEmpty_iff] using hne)
  · intro hcond
    refine ⟨by simp [pageWeight_append, pageWeight_singleton, h1], ?_, h3⟩
    intro _
    by_cases hne : st.current_page = []
    · have : st.current_len = 0 := by simp [h1, hne, pageWeight]
      rw [this, zero_add]
      exact hwc
    · have hA : st.current_page.isEmpty = false := by
        simpa [List.isEmpty_iff] using hne
      have hB : ¬ (W < st.current_len + commentWeight c) := fun hB =>
        hcond ⟨hA, Or.inl hB⟩
      exact not_lt.mp hB

lemma pgStep_weightB (W : ℚ) (mpp : ℤ) (st : PgState) (c : Comment)
    (h : WInvB W st) : WInvB W (pgStep W mpp st c) := by
  obtain ⟨h1, h2, h3, h4⟩ := h
  refine pgStep_cases W mpp st c (WInvB W) ?_ ?_
  · intro hne _
    refine ⟨by simp [pageWeight_singleton], by simp, ?_, ?_⟩
    · intro p hp
      rcases List.mem_append.mp hp with h' | h'
      · exact h3 p h'
      · simp only [List.mem_singleton] at h'
        subst h'
        intro hlen
        rw [← h1]
        exact h2 hlen
    · intro p hp
      rcases List.mem_append.mp hp with h' | h'
      · exact h4 p h'
      · simp only [List.mem_singleton] at h'
        subst h'
        simpa [List.isEmpty_iff] using hne
  · intro hcond
    refine ⟨by simp [pageWeight_append, pageWeight_singleton, h1], ?_, h3, h4⟩
    intro hlen
    have hne : st.current_page ≠ [] := by
      intro hnil
      rw [hnil] at hlen
      simp at hlen
    have hA : st.current_page.isEmpty = false := by
      simpa [List.isEmpty_iff] using hne
    have hB : ¬ (W < st.current_len + commentWeight c) := fun hB =>
      hcond ⟨hA, Or.inl hB⟩
    exact not_lt.mp hB

/-- Any output page whose weight total exceeds the budget is a single oversized
comment. -/
lemma paginate_oversized_singleton {cs : List Comment} {W : ℚ} {mpp : ℤ} :
    ∀ p ∈ paginate_comments cs W mpp, W < pageWeight p →
      ∃ c, p = [c] ∧ W < commentWeight c := by
  have hB := foldl_pgStep_inv W mpp (WInvB W) cs
    (fun st c _ h => pgStep_weightB W mpp st c h)
    ⟨[], [], 0⟩ ⟨by simp [pageWeight], by simp, by simp, by simp⟩
  intro p hp hgt
  have hfacts : p ≠ [] ∧ (2 ≤ p.length → pageWeight p ≤ W) := by
    rcases mem_paginate_comments hp with h | ⟨rfl, hne⟩
    · exact ⟨hB.2.2.2 p h, hB.2.2.1 p h⟩
    · exact ⟨hne, fun hlen => hB.1 ▸ hB.2.1 hlen⟩
  match p, hfacts with
  | [], ⟨hne, _⟩ => exact absurd rfl hne
  | [c], _ => exact ⟨c, rfl, by simpa [pageWeight_singleton] using hgt⟩
  | a :: b :: t, ⟨_, hw⟩ =>
    exact absurd (hw (by simp only [List.length_cons]; omega)) (not_le.mpr hgt)

/-- C2: if every comment individually fits the weight budget then every output
page fits it; unconditionally, a page can exceed the budget only by being a
single oversized comment, and an oversized comment always sits alone on its
page (it is never dropped: see `paginate_comments_concat`). -/
theorem paginate_comments_weight (cs : List Comment) (W : ℚ) (mpp : ℤ) :
    ((∀ c ∈ cs, commentWeight c ≤ W) →
        ∀ p ∈ paginate_comments cs W mpp, pageWeight p ≤ W) ∧
      (∀ p ∈ paginate_comments cs W mpp, W < pageWeight p →
        ∃ c, p = [c] ∧ W < commentWeight c) ∧
      (∀ p ∈ paginate_comments cs W mpp, ∀ c ∈ p, W < commentWeight c → p = [c]) := by
  refine ⟨?_, paginate_oversized_singleton, ?_⟩
  · intro hw
    have hA := foldl_pgStep_inv W mpp (WInvA W) cs
      (fun st c hc h => pgStep_weightA W mpp st c (hw c hc) h)
      ⟨[], [], 0⟩ ⟨by simp [pageWeight], by simp, by simp⟩
    intro p hp
    rcases mem_paginate_comments hp with h | ⟨rfl, hne⟩
    · exact hA.2.2 p h
    · exact hA.1 ▸ hA.2.1 hne
  · intro p hp c hc hgtc
    obtain ⟨c', hp', _⟩ := paginate_oversized_singleton p hp
      (lt_of_lt_of_le hgtc (le_pageWeight_of_mem hc))
    subst hp'
    simp only [List.mem_singleton] at hc
    subst hc
    rfl

/-- C2 witness: a short comment fits the budget, so its page does. -/
theorem paginate_comments_weight_witness :
    commentWeight ⟨"a", some "hi"⟩ ≤ 100 ∧ pageWeight [⟨"a", some "hi"⟩] ≤ 100 := by
  have hw : commentWeight ⟨"a", some "hi"⟩ ≤ 100 := by
    have hl : ("hi" : String).length = 2 := rfl
    norm_num [commentWeight, hl]
  refine ⟨hw, (paginate_comments_weight [⟨"a", some "hi"⟩] 100 3).1 ?_ [⟨"a", some "hi"⟩] ?_⟩
  · intro c hc
    simp only [List.mem_singleton] at hc
    subst hc
    exact hw
  · decide

/-- C3 as stated is false: with `max_per_page = 0` the algorithm still emits a
page holding one comment, which exceeds the cap of zero. -/
theorem paginate_comments_page_size_cex :
    ¬ (∀ p ∈ paginate_comments [⟨"a", none⟩] 100 0, (p.length : ℤ) ≤ 0) := by
  decide

/-- C3 witness: the amended bound applied at a concrete input and page. -/
theorem paginate_comments_page_size_witness :
    (1 : ℤ) ≤ 2 ∧
      (([⟨"a", none⟩, ⟨"b", none⟩] : List Comment).length : ℤ) ≤ 2 :=
  ⟨by decide,
    paginate_comments_page_size [⟨"a", none⟩, ⟨"b", none⟩, ⟨"c", none⟩] 100 2 (by decide)
      [⟨"a", none⟩, ⟨"b", none⟩]
      (by norm_num [paginate_comments, pgStep, pgBreak, commentWeight])⟩

/-- C7: the pagination weight of a comment is the full message length when it
is strictly over 120 characters and half the length (`* 0.5`) otherwise; in
particular a 120-character message counts as 60. -/
theorem commentWeight_formula :
    (∀ c : Comment, 120 < (c.message.getD "").length →
        commentWeight c = ((c.message.getD "").length : ℚ)) ∧
      (∀ c : Comment, (c.message.getD "").length ≤ 120 →
        commentWeight c = ((c.message.getD "").length : ℚ) * (1 / 2)) ∧
      ∀ c : Comment, (c.message.getD "").length = 120 → commentWeight c = 60 := by
  refine ⟨?_, ?_, ?_⟩
  · intro c h
    simp [commentWeight, h]
  · intro c h
    simp [commentWeight, Nat.not_lt.mpr h]
  · intro c h
    rw [commentWeight]
    simp only [h]
    norm_num

/-- C7 witness: a comment whose message has exactly 120 characters gets the
half-cost discount and weighs 60. -/
theorem commentWeight_formula_witness :
    commentWeight ⟨"x", some (String.mk (List.replicate 120 'a'))⟩ = 60 :=
  commentWeight_formula.2.2 ⟨"x", some (String.mk (List.replicate 120 'a'))⟩ (by decide)

/-- C10: a comment with no `message` key is tolerated by `paginate_comments`
(`c.get("message", "")`): it weighs 0, the weight-overflow test with it is
equivalent to the test without it (it never causes a break on its own), and it
still lands on a page in its original position. -/
theorem paginate_missing_message (pre post : List Comment) (c : Comment)
    (hmsg : c.message = none) (W : ℚ) (mpp : ℤ) :
    commentWeight c = 0 ∧
      (∀ x : ℚ, (W < x + commentWeight c ↔ W < x)) ∧
      (paginate_comments (pre ++ c :: post) W mpp).flatten = pre ++ c :: post := by
  have hw : commentWeight c = 0 := by
    simp [commentWeight, hmsg]
  exact ⟨hw, fun x => by rw [hw, add_zero], paginate_comments_join_eq _ _ _⟩

/-- C10 witness: a concrete message-less comment. -/
theorem paginate_missing_message_witness :
    commentWeight ⟨"noMsg", none⟩ = 0 ∧
      ((100 : ℚ) < 3 + commentWeight ⟨"noMsg", none⟩ ↔ (100 : ℚ) < 3) ∧
      (paginate_comments [⟨"noMsg", none⟩, ⟨"b", some "hi"⟩] 100 3).flatten =
        [⟨"noMsg", none⟩, ⟨"b", some "hi"⟩] := by
  have h := paginate_missing_message [] [⟨"b", some "hi"⟩] ⟨"noMsg", none⟩ rfl 100 3
  exact ⟨h.1, h.2.1 3, h.2.2⟩

/-- C5: the render pass resolves the pages background from the raw `pages`
entry, falling back to the raw `cover` entry, and the cover background from
the raw `cover` entry, falling back to the legacy `background_image`; the two
scopes are resolved by separate calls, so overriding the raw `pages` entry
never changes the resolved cover, and the legacy fallback never changes the
resolved pages background. -/
theorem render_background_resolution (d : RenderData) :
    renderBackgroundPages d = pagesScopeSpec d ∧
      renderBackgroundCover d = coverScopeSpec d ∧
      (∀ p, renderBackgroundCover (setPages d p) = renderBackgroundCover d) ∧
      (∀ img, renderBackgroundPages (setBackgroundImage d img) = renderBackgroundPages d) := by
  refine ⟨?_, ?_, ?_, ?_⟩
  · rcases hb : d.backgrounds.getD emptyBackgrounds with ⟨cov, pg, pl⟩
    cases pg <;> cases cov <;>
      simp [renderBackgroundPages, pagesScopeSpec, hb]
  · rcases hb : d.backgrounds.getD emptyBackgrounds with ⟨cov, pg, pl⟩
    cases cov <;> cases hbi : d.background_image <;>
      simp [renderBackgroundCover, coverScopeSpec, hb, hbi]
  · intro p
    rcases hb : d.backgrounds.getD emptyBackgrounds with ⟨cov, pg, pl⟩
    simp [renderBackgroundCover, setPages, hb]
  · intro img
    simp [renderBackgroundPages, setBackgroundImage]

/-- C6: `parse_background` maps a plain string to that image with both
defaults; reads `image`, `size`, `position` field-wise from a dict, each
absent field independently replaced by its default (empty string for the
image, the provided defaults otherwise); and maps an absent entry (`null`)
or any other shape to the all-defaults record. -/
theorem parse_background_cases (default_size default_position : JValue) :
    (∀ s, parse_background (.str s) default_size default_position =
      ⟨.str s, default_size, default_position⟩) ∧
      (∀ fields v, jGet fields "image" = some v →
        (parse_background (.obj fields) default_size default_position).image = v) ∧
      (∀ fields, jGet fields "image" = none →
        (parse_background (.obj fields) default_size default_position).image = .str "") ∧
      (∀ fields v, jGet fields "size" = some v →
        (parse_background (.obj fields) default_size default_position).size = v) ∧
      (∀ fields, jGet fields "size" = none →
        (parse_background (.obj fields) default_size default_position).size = default_size) ∧
      (∀ fields v, jGet fields "position" = some v →
        (parse_background (.obj fields) default_size default_position).position = v) ∧
      (∀ fields, jGet fields "position" = none →
        (parse_background (.obj fields) default_size default_position).position =
          default_position) ∧
      parse_background .null default_size default_position =
        ⟨.str "", default_size, default_position⟩ ∧
      (∀ b, parse_background (.bool b) default_size default_position =
        ⟨.str "", default_size, default_position⟩) ∧
      (∀ n, parse_background (.num n) default_size default_position =
        ⟨.str "", default_size, default_position⟩) ∧
      (∀ l, parse_background (.arr l) default_size default_position =
        ⟨.str "", default_size, default_position⟩) := by
  refine ⟨fun s => rfl, ?_, ?_, ?_, ?_, ?_, ?_, rfl, fun b => rfl, fun n => rfl,
    fun l => rfl⟩ <;>
    intro fields
  · intro v h
    simp [parse_background, h]
  · intro h
    simp [parse_background, h]
  · intro v h
    simp [parse_background, h]
  · intro h
    simp [parse_background, h]
  · intro v h
    simp [parse_background, h]
  · intro h
    simp [parse_background, h]

/-- C6 witness: the spec scenario
`resolve({"image":"bg.jpg","size":"50% 50%"}, "cover", "center")`: image and
size come from the object, position falls back to the default. -/
theorem parse_background_cases_witness :
    (parse_background (.obj [("image", .str "bg.jpg"), ("size", .str "50% 50%")])
        (.str "cover") (.str "center")).image = .str "bg.jpg" ∧
      (parse_background (.obj [("image", .str "bg.jpg"), ("size", .str "50% 50%")])
        (.str "cover") (.str "center")).size = .str "50% 50%" ∧
      (parse_background (.obj [("image", .str "bg.jpg"), ("size", .str "50% 50%")])
        (.str "cover") (.str "center")).position = .str "center" :=
  ⟨(parse_background_cases (.str "cover") (.str "center")).2.1 _ _ rfl,
    (parse_background_cases (.str "cover") (.str "center")).2.2.2.1 _ _ rfl,
    (parse_background_cases (.str "cover") (.str "center")).2.2.2.2.2.2.1 _ rfl⟩

/-- The `.list` branch of `validate_comments`, as an equation. -/
lemma validate_comments_list_eq (fs : String → Bool) (cs : List RawComment) :
    validate_comments fs (.list cs) =
      if cs.length = 0 then .error (.validation "comments array is empty")
      else (validateCommentsLoop fs 0 cs) >>= fun _ => pure (duplicateAuthors cs) := rfl

lemma onlyValidation_bind {α β : Type} {x : Except VError α} {f : α → Except VError β}
    (hx : onlyValidation x) (hf : ∀ a, onlyValidation (f a)) :
    onlyValidation (x >>= f) := by
  cases x with
  | error e => cases e <;> exact hx
  | ok a => exact hf a

lemma requireKey_onlyValidation (v : Option JValue) (msg : String) :
    onlyValidation (requireKey v msg) := by
  cases v <;> trivial

lemma requireNonEmptyString_onlyValidation (v : JValue) (msg : String) :
    onlyValidation (requireNonEmptyString v msg) := by
  unfold requireNonEmptyString
  split
  · split <;> trivial
  · trivial

lemma checkProfileImage_onlyValidation (fs : String → Bool) (i : Nat) (author : String)
    (pi : Option JValue) (h : ∀ v, pi = some v → truthy v = true → ∃ s, v = JValue.str s) :
    onlyValidation (checkProfileImage fs i author pi) := by
  cases pi with
  | none => trivial
  | some v =>
    by_cases ht : truthy v
    · obtain ⟨s, rfl⟩ := h v rfl ht
      by_cases hfs : fs s <;>
        simp [checkProfileImage, ht, validate_file_exists, hfs, onlyValidation]
    · simp [checkProfileImage, ht, onlyValidation]

lemma checkHeight_onlyValidation (i : Nat) (h : Option JValue)
    (hh : ∀ v, h = some v → ∃ s, v = JValue.str s) :
    onlyValidation (checkHeight i h) := by
  cases h with
  | none => trivial
  | some v =>
    obtain ⟨s, rfl⟩ := hh v rfl
    by_cases hm : heightMatch s <;> simp [checkHeight, hm, onlyValidation]

lemma checkComment_onlyValidation (fs : String → Bool) (i : Nat) (c : RawComment)
    (h1 : heightIsString c) (h2 : profileImageStringlike c) :
    onlyValidation (checkComment fs i c) := by
  unfold checkComment
  refine onlyValidation_bind (requireKey_onlyValidation _ _) (fun authorV => ?_)
  refine onlyValidation_bind (requireKey_onlyValidation _ _) (fun messageV => ?_)
  refine onlyValidation_bind (requireNonEmptyString_onlyValidation _ _) (fun author => ?_)
  refine onlyValidation_bind (requireNonEmptyString_onlyValidation _ _) (fun _ => ?_)
  refine onlyValidation_bind
    (checkProfileImage_onlyValidation fs i author c.profile_image h2) (fun _ => ?_)
  exact checkHeight_onlyValidation i c.height h1

lemma validateCommentsLoop_onlyValidation (fs : String → Bool) :
    ∀ (cs : List RawComment) (i : Nat),
      (∀ c ∈ cs, heightIsString c ∧ profileImageStringlike c) →
      onlyValidation (validateCommentsLoop fs i cs) := by
  intro cs
  induction cs with
  | nil => intro i _; trivial
  | cons c rest ih =>
    intro i h
    unfold validateCommentsLoop
    refine onlyValidation_bind
      (checkComment_onlyValidation fs i c (h c (List.mem_cons_self c rest)).1
        (h c (List.mem_cons_self c rest)).2) (fun _ => ?_)
    exact ih (i + 1) (fun c' hc' => h c' (List.mem_cons_of_mem c hc'))

/-- A mapping element is checked exactly as its consulted-key record. -/
lemma checkEntry_obj (fs : String → Bool) (i : Nat) (fields : List (String × JValue)) :
    checkEntry fs i (.obj fields) = checkComment fs i (rawOfObj fields) := rfl

/-- The `.arr` branch of `validate_comments_data`, as an equation. -/
lemma validate_comments_data_arr_eq (fs : String → Bool) (elems : List JValue) :
    validate_comments_data fs (some (.arr elems)) =
      if elems.length = 0 then .error (.validation "comments array is empty")
      else (validateEntriesLoop fs 0 elems) >>= fun _ =>
        pure (duplicateAuthorsData elems) := rfl

lemma checkEntry_onlyValidation (fs : String → Bool) (i : Nat) (v : JValue)
    (h : entryMappingSafe v) : onlyValidation (checkEntry fs i v) := by
  obtain ⟨fields, rfl, h1, h2⟩ := h
  exact checkComment_onlyValidation fs i (rawOfObj fields) h1 h2

lemma validateEntriesLoop_onlyValidation (fs : String → Bool) :
    ∀ (elems : List JValue) (i : Nat),
      (∀ v ∈ elems, entryMappingSafe v) →
      onlyValidation (validateEntriesLoop fs i elems) := by
  intro elems
  induction elems with
  | nil => intro i _; trivial
  | cons v rest ih =>
    intro i h
    unfold validateEntriesLoop
    refine onlyValidation_bind
      (checkEntry_onlyValidation fs i v (h v (List.mem_cons_self v rest))) (fun _ => ?_)
    exact ih (i + 1) (fun v' hv' => h v' (List.mem_cons_of_mem v hv'))

/-- Amended C4: for every dataset whose comments-array elements are all
mappings carrying a string `height` whenever one is present and a string
`profile_image` whenever a truthy one is present, validation either succeeds
or fails with a `ValidationError` — never with the modelled `TypeError` — for
every shape of the `comments` entry (absent, non-list, or list). -/
theorem validate_comments_error_kind (fs : String → Bool) (comments : Option JValue)
    (h : ∀ elems, comments = some (JValue.arr elems) → ∀ v ∈ elems, entryMappingSafe v) :
    onlyValidation (validate_comments_data fs comments) := by
  cases comments with
  | none => trivial
  | some v =>
    cases v with
    | arr elems =>
      rw [validate_comments_data_arr_eq]
      split
      · trivial
      · exact onlyValidation_bind
          (validateEntriesLoop_onlyValidation fs elems 0 (h elems rfl)) (fun _ => trivial)
    | null => trivial
    | bool b => trivial
    | num n => trivial
    | str s => trivial
    | obj fields => trivial

/-- C4 witness: a blank author in a mapping comment is reported as a
`ValidationError`, leaving the outcome in the allowed class. -/
theorem validate_comments_error_kind_witness :
    onlyValidation (validate_comments_data (fun _ => true)
      (some (.arr [.obj [("author", .str " "), ("message", .str "m")]]))) :=
  validate_comments_error_kind (fun _ => true)
    (some (.arr [.obj [("author", .str " "), ("message", .str "m")]]))
    (by
      intro elems heq v hv
      injection heq with h1
      injection h1 with h2
      subst h2
      simp only [List.mem_singleton] at hv
      subst hv
      exact ⟨[("author", .str " "), ("message", .str "m")], rfl,
        fun w hw => Option.noConfusion hw, fun w hw _ => Option.noConfusion hw⟩)

/-- C4 as stated is false: a mapping comment whose `height` is present but is
a number makes validation fail with a `TypeError` (from `re.match`), not a
`ValidationError`. -/
theorem validate_comments_error_kind_cex :
    validate_comments_data (fun _ => true)
        (some (.arr [.obj [("author", .str "a"), ("message", .str "m"),
          ("height", .num 120)]])) =
      .error (.typeError "expected string or bytes-like object") := rfl

lemma validateCommentsLoop_ok (fs : String → Bool) :
    ∀ (cs : List RawComment) (i : Nat),
      (∀ p ∈ List.enumFrom i cs, checkComment fs p.1 p.2 = .ok ()) →
      validateCommentsLoop fs i cs = .ok () := by
  intro cs
  induction cs with
  | nil => intro i _; rfl
  | cons c rest ih =>
    intro i h
    have hmem : ((i, c) : Nat × RawComment) ∈ List.enumFrom i (c :: rest) :=
      List.mem_cons_self _ _
    have hc : checkComment fs i c = .ok () := h (i, c) hmem
    unfold validateCommentsLoop
    rw [hc]
    exact ih (i + 1) (fun p hp => h p (List.mem_cons_of_mem _ hp))

/-- C8: a dataset whose comments all pass their individual checks validates
successfully whatever the authors are; duplicate authors only show up in the
returned warning list, never as a failure. -/
theorem validate_comments_duplicates_ok (fs : String → Bool) (cs : List RawComment)
    (hne : cs ≠ [])
    (h : ∀ p ∈ cs.enum, checkComment fs p.1 p.2 = .ok ()) :
    validate_comments fs (.list cs) = .ok (duplicateAuthors cs) := by
  rw [validate_comments_list_eq]
  rw [if_neg (fun h0 => hne (List.length_eq_zero.mp h0))]
  have hloop := validateCommentsLoop_ok fs cs 0 h
  rw [hloop]
  rfl

/-- C8 witness: two comments by the same author validate successfully and the
duplicate shows up only in the warning list. -/
theorem validate_comments_duplicates_ok_witness :
    validate_comments (fun _ => true) (.list [aliceHello, aliceAgain]) = .ok ["alice"] := by
  have h := validate_comments_duplicates_ok (fun _ => true) [aliceHello, aliceAgain]
    (by simp)
    (by
      intro p hp
      have hp' : p ∈ [((0 : Nat), aliceHello), (1, aliceAgain)] := hp
      simp only [List.mem_cons, List.not_mem_nil, or_false] at hp'
      rcases hp' with rfl | rfl <;> rfl)
  rw [h]
  rfl

/-- Amended C9: for a comment passing the earlier checks whose `height` is a
string, the check succeeds exactly when the string is digits-then-`px`,
optionally with one trailing newline (Python `$` semantics), and otherwise
fails with a `ValidationError` whose reason starts with the indexed path;
`"120px"` is accepted and `"120"` is rejected. -/
theorem checkComment_height_spec (fs : String → Bool) (i : Nat) (c : RawComment)
    (a m s : String)
    (ha : c.author = some (.str a)) (ha' : isBlank a = false)
    (hm : c.message = some (.str m)) (hm' : isBlank m = false)
    (hp : c.profile_image = none)
    (hh : c.height = some (.str s)) :
    checkComment fs i c =
        (if heightMatch s then Except.ok ()
          else Except.error (.validation (heightMsg i s))) ∧
      heightMsg i s =
        ("comments[" ++ toString i ++ "].height") ++ (" must be in format XXXpx. Got: " ++ s) ∧
      heightMatch "120px" = true ∧ heightMatch "120" = false := by
  have hokbind : ∀ {α β : Type} (x : α) (f : α → Except VError β),
      (Except.ok x >>= f) = f x := fun _ _ => rfl
  refine ⟨?_, ?_, by decide, by decide⟩
  · unfold checkComment
    rw [ha, hm, hp, hh]
    simp [requireKey, requireNonEmptyString, ha', hm', checkProfileImage, checkHeight,
      hokbind]
  · rw [heightMsg]
    rw [← String.append_assoc]
    rw [String.append_assoc ("comments[" ++ toString i) "].height"
      " must be in format XXXpx. Got: "]
    rfl

/-- C9 witness: the height rule applied to a concrete comment with
`height = "120"` at index 3. -/
theorem checkComment_height_spec_witness :
    (checkComment (fun _ => true) 3 heightDemoComment =
        (if heightMatch "120" then Except.ok ()
          else Except.error (.validation (heightMsg 3 "120")))) ∧
      heightMsg 3 "120" =
        ("comments[" ++ toString 3 ++ "].height") ++ (" must be in format XXXpx. Got: " ++ "120") ∧
      heightMatch "120px" = true ∧ heightMatch "120" = false :=
  checkComment_height_spec (fun _ => true) 3 heightDemoComment "a" "m" "120"
    rfl (by decide) rfl (by decide) rfl rfl

/-- C9 as stated is false on one point: `"120px\n"` does not match the
spec-worded pixel pattern (digits then `px`), yet validation accepts it,
because Python `$` also matches before a single trailing newline. -/
theorem validate_comments_height_newline_cex :
    validate_comments (fun _ => true)
        (.list [⟨some (.str "a"), some (.str "m"), none, some (.str "120px\n")⟩]) =
      .ok [] ∧ specPixelPattern "120px\n" = false := ⟨rfl, rfl⟩
